import Mathlib

/-!
Verification of the ClickHouse forecasting script (`forecast_script.py`).

Shallow embedding: table and column names are Lean `String`s, dates are
`Int` (epoch-day ordinals: `pandas` date ordering and comparison carry over),
forecast values are `Int` (their numeric content is never computed with by
the orchestration code, only carried around and rendered), and the
ClickHouse client is replaced by explicit inputs (catalog contents, schema
rows, source-table dates) and explicit outputs (DDL descriptions, one
structured insert statement). The Prophet model is the external collaborator
boundary: it is a per-column black box (`ColEngine`) giving whether
`fit`/`predict` raises, which dates `make_future_dataframe` returns, and the
`yhat`/`yhat_lower`/`yhat_upper` series on those dates.
-/

/-- A model of Python whitespace characters removed by `str.strip()`
(ASCII subset, which is all that table names can carry here). -/
def isPySpace (c : Char) : Bool :=
  c = ' ' || c = '\t' || c = '\n' || c = '\r' || c = '\x0b' || c = '\x0c'

/-- Python `s.strip()`: drop leading and trailing whitespace. -/
def pyStrip (s : String) : String :=
  ⟨((s.data.dropWhile isPySpace).reverse.dropWhile isPySpace).reverse⟩

/-- Boolean list-prefix test (model of Python `str.startswith` on the
underlying character lists). -/
def prefixOf : List Char → List Char → Bool
  | [], _ => true
  | _ :: _, [] => false
  | a :: as, b :: bs => a = b && prefixOf as bs

/-- Python `s.startswith(pat)`. -/
def pyStartsWith (s pat : String) : Bool :=
  prefixOf pat.data s.data

/-- Model of the Python substring test `pat in s` on character lists:
`pat` occurs contiguously somewhere in the list. -/
def strHasSub (pat : List Char) : List Char → Bool
  | [] => prefixOf pat []
  | c :: rest => prefixOf pat (c :: rest) || strHasSub pat rest

/-- Python `t in s` for strings (substring containment). -/
def strInStr (t s : String) : Bool :=
  strHasSub t.data s.data

/-- Python slicing `s[n:]`. -/
def pyDrop (s : String) (n : Nat) : String :=
  ⟨s.data.drop n⟩

/-- Python `s.split(',')` on the underlying character list: split at every
comma, keeping empty chunks (`"a,,b" → ["a", "", "b"]`, `"" → [""]`). -/
def splitComma : List Char → List (List Char)
  | [] => [[]]
  | c :: rest =>
    let r := splitComma rest
    if c = ',' then [] :: r
    else
      match r with
      | [] => [[c]]
      | h :: t => (c :: h) :: t

/-- `forecast_script.py` line 122/124 (`create_forecast_table`): the name of
the forecast table used when creating it. The source prepends the database
qualifier `f"{db_name}."`; the qualifier is elided here since every claim is
about the table-local name. Line 121 tests `table_name.strip().startswith("bucket_")`
but then slices the *unstripped* name (`table_name[7:]`). -/
def create_forecast_table_name (table_name : String) : String :=
  if pyStartsWith (pyStrip table_name) "bucket_" then
    "bucket_forecast_" ++ pyDrop table_name 7
  else
    "bucket_forecast_" ++ table_name

/-- `forecast_script.py` line 156 (`forecast_table`): the name of the
forecast table used when inserting forecast rows, database qualifier elided.
The source slices `table_name[7:]` unconditionally, with no prefix check. -/
def insert_forecast_table_name (table_name : String) : String :=
  "bucket_forecast_" ++ pyDrop table_name 7

/-- The forecast-table name the specification's stem rule prescribes.
Modelled from the spec: stem is the source name with one leading literal
`bucket_` prefix removed if present, otherwise the source name unchanged. -/
def spec_forecast_table_name (table_name : String) : String :=
  if pyStartsWith table_name "bucket_" then
    "bucket_forecast_" ++ pyDrop table_name 7
  else
    "bucket_forecast_" ++ table_name

/-- `SKIP_DATA_TYPES` (line 68): type families whose columns are excluded
from forecasting. The source keeps them in a Python set; only membership and
`any`-iteration are used, so a list is a faithful model. -/
def SKIP_DATA_TYPES : List String :=
  ["String", "Text", "Enum", "Boolean", "Blob", "Binary", "Array", "JSON", "UUID"]

/-- The retention test of `get_columns_and_types` (line 112):
`column != "date" and not any(skip_type in type_ for skip_type in SKIP_DATA_TYPES)`. -/
def keepColumn (c t : String) : Bool :=
  !(c == "date") && !(SKIP_DATA_TYPES.any fun s => strInStr s t)

/-- `get_columns_and_types` (lines 106-117): from the DESCRIBE result rows
(name and declared type; the other five catalog fields are discarded by the
source via `*rest`), build the parallel `columns`/`types` lists of retained
pairs, in order. -/
def get_columns_and_types (info : List (String × String)) : List String × List String :=
  let kept := info.filter fun p => keepColumn p.1 p.2
  (kept.map Prod.fst, kept.map Prod.snd)

/-- The five process-wide accumulator lists (lines 69-73). -/
structure RunState where
  successful_tables : List String
  new_tables : List String
  updated_tables : List String
  failed_tables : List String
  skipped_tables : List String
deriving DecidableEq

/-- The observable effect of `create_forecast_table` on the database:
whether the pre-existing forecast table was dropped, the created table's
name, and its column schema as (name, type) pairs in declaration order. -/
structure CreateResult where
  dropped : Bool
  name : String
  schema : List (String × String)
deriving DecidableEq

/-- `create_forecast_table` (lines 120-151). `tableExists` stands for the
result of the `EXISTS TABLE` probe (line 129). The created schema is
`date Date` followed by `col typ, col_min typ, col_max typ` per retained
pair (line 135 and 138-144); `zip` truncates to the shorter list exactly as
Python's `zip` does. The table is recorded as new when the probe failed and
as updated when it succeeded (lines 146-151). -/
def create_forecast_table (table_name : String) (columns types : List String)
    (tableExists : Bool) (st : RunState) : RunState × CreateResult :=
  let name := create_forecast_table_name table_name
  let defs := (columns.zip types).flatMap fun p => [(p.1, p.2), (p.1 ++ "_min", p.2), (p.1 ++ "_max", p.2)]
  let schema := ("date", "Date") :: defs
  if tableExists then
    ({ st with updated_tables := st.updated_tables ++ [table_name] }, ⟨true, name, schema⟩)
  else
    ({ st with new_tables := st.new_tables ++ [table_name] }, ⟨false, name, schema⟩)

/-- One rendered field of the bulk insert's VALUES list: either a database
NULL literal or a carried value (line 208-210: `str(...)` vs `'NULL'`). -/
inductive Cell where
  | null : Cell
  | val : Int → Cell
deriving DecidableEq

/-- The single multi-row insert statement built at lines 203-213: target
table, column-name list in header order, and one (date, cells) entry per
forecast row. -/
structure InsertStmt where
  table : String
  cols : List String
  rows : List (Int × List Cell)
deriving DecidableEq

/-- One entry of the per-date Python dict row (`forecast_data[date]`):
an insertion-ordered association list from key strings (`'date'`, `col`,
`col_min`, `col_max`) to carried values. -/
abbrev Row := List (String × Int)

/-- Python dict lookup `row[k]` / `k in row` support: first binding wins
(keys are unique by construction, as in a Python dict). -/
def lookupF : Row → String → Option Int
  | [], _ => none
  | p :: rest, k => if p.1 == k then some p.2 else lookupF rest k

/-- Python dict assignment `row[k] = v`: overwrite in place when the key is
present, append otherwise (dicts preserve insertion order). -/
def setField (r : Row) (k : String) (v : Int) : Row :=
  if r.any fun p => p.1 == k then
    r.map fun p => if p.1 == k then (p.1, v) else p
  else
    r ++ [(k, v)]

/-- Apply `f` to the row stored under date key `d` of the outer
`forecast_data` dict (modelled as an insertion-ordered association list). -/
def updateAt (fd : List (Int × Row)) (d : Int) (f : Row → Row) : List (Int × Row) :=
  fd.map fun p => if p.1 == d then (p.1, f p.2) else p

/-- Lines 188-194: record one forecast point for column `c` on date `d`.
If `d` is not yet a key of `forecast_data`, a fresh row `{'date': d}` is
inserted; then the three fields `c`, `c_min`, `c_max` are assigned. -/
def addPoint (fd : List (Int × Row)) (d : Int) (c : String) (vh vl vu : Int) :
    List (Int × Row) :=
  let fd1 := if fd.any fun p => p.1 == d then fd else fd ++ [(d, [("date", d)])]
  updateAt fd1 d fun r => setField (setField (setField r c vh) (c ++ "_min") vl) (c ++ "_max") vu

/-- `data['date'].max()` for a non-empty date column (line 166). -/
def listMax : List Int → Int
  | [] => 0
  | d :: rest => rest.foldl max d

/-- The external-collaborator boundary for one column: whether
`Prophet().fit`/`predict` raises for this column's series, the dates that
`make_future_dataframe(periods=interval)` returns (historical in-sample
dates plus the future horizon), and the predicted series on those dates. -/
structure ColEngine where
  fitFails : Bool
  future : List Int
  yhat : Int → Int
  ylo : Int → Int
  yhi : Int → Int

/-- Lines 174-176: the date frame actually passed to `predict` — the
engine's frame, restricted to dates strictly after `last` when `onlyFuture`
is set. -/
def effFuture (eng : String → ColEngine) (last : Int) (onlyFuture : Bool) (c : String) :
    List Int :=
  if onlyFuture then (eng c).future.filter fun d => last < d else (eng c).future

/-- One rendered field for key `k` of row `r`
(line 208-210: `str(data[k]) if k in data else 'NULL'`). -/
def cellOf (r : Row) (k : String) : Cell :=
  match lookupF r k with
  | some v => Cell.val v
  | none => Cell.null

/-- The per-row VALUES tuple after the date: every column's estimate, then
every column's `_min`, then every column's `_max` (lines 207-210). -/
def rowCells (columns : List String) (r : Row) : List Cell :=
  (columns.map fun c => cellOf r c)
    ++ (columns.map fun c => cellOf r (c ++ "_min"))
    ++ (columns.map fun c => cellOf r (c ++ "_max"))

/-- Lines 203-213: the single INSERT statement — header order
`date, c1..cn, c1_min..cn_min, c1_max..cn_max`, one VALUES tuple per entry
of `forecast_data` (in insertion order), dates taken from each row's
`'date'` field. The target name comes from line 156's unconditional slice. -/
def buildInsert (table_name : String) (columns : List String) (fd : List (Int × Row)) :
    InsertStmt :=
  { table := insert_forecast_table_name table_name
    cols := "date" :: (columns ++ (columns.map fun c => c ++ "_min") ++ (columns.map fun c => c ++ "_max"))
    rows := fd.map fun p => ((lookupF p.2 "date").getD 0, rowCells columns p.2) }

/-- The pure `forecast_data` effect of one column's loop iteration
(lines 169-194): nothing on failure, otherwise fold every predicted date
into the dict. -/
def colPoints (eng : String → ColEngine) (last : Int) (onlyFuture : Bool)
    (fd : List (Int × Row)) (c : String) : List (Int × Row) :=
  let e := eng c
  if e.fitFails then fd
  else (effFuture eng last onlyFuture c).foldl
    (fun fd d => addPoint fd d c (e.yhat d) (e.ylo d) (e.yhi d)) fd

/-- One iteration of the per-column loop, carrying both `forecast_data` and
the run state: a raising column appends the table to `failed_tables`
(lines 196-198), a successful column contributes its points. -/
def colStep (tbl : String) (eng : String → ColEngine) (last : Int) (onlyFuture : Bool)
    (acc : List (Int × Row) × RunState) (c : String) : List (Int × Row) × RunState :=
  let e := eng c
  if e.fitFails then
    (acc.1, { acc.2 with failed_tables := acc.2.failed_tables ++ [tbl] })
  else
    ((effFuture eng last onlyFuture c).foldl
      (fun fd d => addPoint fd d c (e.yhat d) (e.ylo d) (e.yhi d)) acc.1, acc.2)

/-- The `forecast_data` dict accumulated over all columns. -/
def forecastDataOf (columns : List String) (eng : String → ColEngine) (last : Int)
    (onlyFuture : Bool) : List (Int × Row) :=
  columns.foldl (colPoints eng last onlyFuture) []

/-- `forecast_table` (lines 154-217). Inputs: the retained column list (the
source recomputes it via `get_columns_and_types`, line 155), the source
table's date column in query order (`dataDates`; the frame is empty iff this
list is), the per-column engine boundary, and the `only_future` flag.
Output: the run state after the call and the insert statement issued, if
any. Empty source data logs a warning, appends to `failed_tables` and
returns early (lines 160-163); otherwise each column is forecast in order,
the collected rows (if any) become one insert statement (lines 201-213),
and the table is appended to `successful_tables` unconditionally
(line 217). -/
def forecast_table (tbl : String) (columns : List String) (dataDates : List Int)
    (eng : String → ColEngine) (onlyFuture : Bool) (st : RunState) :
    RunState × Option InsertStmt :=
  if dataDates.isEmpty then
    ({ st with failed_tables := st.failed_tables ++ [tbl] }, none)
  else
    let last := listMax dataDates
    let acc := columns.foldl (colStep tbl eng last onlyFuture) ([], st)
    ({ acc.2 with successful_tables := acc.2.successful_tables ++ [tbl] },
     if acc.1.isEmpty then none else some (buildInsert tbl columns acc.1))

/-- Python truthiness of the optional `specific_tables` argument combined
with the substring test of line 231: `specific_tables and table not in
specific_tables`. -/
def notListed (specific : Option String) (t : String) : Bool :=
  match specific with
  | none => false
  | some s => !(s == "") && !(strInStr t s)

/-- Lines 223-226: the candidate list — the comma-split of
`specific_tables` when that is a non-empty string, the catalog enumeration
otherwise. -/
def candidate_tables (specific : Option String) (catalog : List String) : List String :=
  match specific with
  | some s => if s == "" then catalog else (splitComma s.data).map fun l => String.mk l
  | none => catalog

/-- The selection part of `main`'s loop (lines 229-242): for each candidate,
`continue` if the `not in specific_tables` guard fires; else record in
`skipped_tables` and `continue` when the name starts with
`bucket_forecast_`; else process the table (schema inspection, table
creation, forecasting). Returns (skipped list, processed list) in loop
order. -/
def selectLoop (specific : Option String) : List String → List String × List String
  | [] => ([], [])
  | t :: rest =>
    if notListed specific t then selectLoop specific rest
    else if pyStartsWith t "bucket_forecast_" then
      let r := selectLoop specific rest
      (t :: r.1, r.2)
    else
      let r := selectLoop specific rest
      (r.1, t :: r.2)

/-- Table selection for a whole run. -/
def mainSelect (specific : Option String) (catalog : List String) :
    List String × List String :=
  selectLoop specific (candidate_tables specific catalog)

/-- The five numbers logged by the summary line (line 246), in log order:
`len(successful)+len(skipped)`, `len(new)`, `len(updated)`,
`len(skipped)-len(failed)` (Python integer subtraction, hence `Int`), and
`len(failed)`. -/
def summaryCounts (st : RunState) : Nat × Nat × Nat × Int × Nat :=
  (st.successful_tables.length + st.skipped_tables.length,
   st.new_tables.length,
   st.updated_tables.length,
   (st.skipped_tables.length : Int) - (st.failed_tables.length : Int),
   st.failed_tables.length)

/-- The full dict row that repeated `addPoint` calls build for a single
successful column `c` on date `d` (helper for row-shape lemmas). -/
def fullRow (c : String) (yh yl yu : Int → Int) (d : Int) : Row :=
  [("date", d), (c, yh d), (c ++ "_min", yl d), (c ++ "_max", yu d)]

/-- Claim C1: the claim states that both the creation site and the insert
site target `bucket_forecast_<stem>` with the stem rule (leading `bucket_`
removed once if present, else the name unchanged). The code violates this:
`forecast_table` (line 156) slices the first 7 characters off the table name
unconditionally, so for the non-`bucket_` name `"orders"` the creation site
targets `bucket_forecast_orders` while the insert site targets
`bucket_forecast_` — a different (and never-created) table. This theorem
evaluates the embedded code at that failing input. -/
theorem claim_C1_insert_site_breaks_stem_rule :
    create_forecast_table_name "orders" = "bucket_forecast_orders" ∧
    spec_forecast_table_name "orders" = "bucket_forecast_orders" ∧
    insert_forecast_table_name "orders" = "bucket_forecast_" ∧
    insert_forecast_table_name "orders" ≠ spec_forecast_table_name "orders" := by
  refine ⟨rfl, rfl, rfl, ?_⟩
  decide

theorem zip_map_fst_snd (l : List (String × String)) :
    (l.map Prod.fst).zip (l.map Prod.snd) = l := by
  induction l with
  | nil => rfl
  | cons p rest ih => simp [ih]

/-- Claim C4: a (name, type) DESCRIBE pair is retained by
`get_columns_and_types` — hence used both for the forecast schema
(`create_forecast_table`, line 241 feeds line 120) and for the forecast
computation (`forecast_table`, line 155) — iff the name is not `date` and
the type string contains none of the configured skip substrings
(case-sensitive substring match anywhere). -/
theorem claim_C4_column_retention (info : List (String × String)) (c t : String) :
    (c, t) ∈ ((get_columns_and_types info).1.zip (get_columns_and_types info).2) ↔
      ((c, t) ∈ info ∧ c ≠ "date" ∧ ∀ s ∈ SKIP_DATA_TYPES, strInStr s t = false) := by
  unfold get_columns_and_types
  rw [zip_map_fst_snd, List.mem_filter]
  simp [keepColumn, and_assoc]

/-- Claim C6: `create_forecast_table` drops the forecast table exactly when
it already existed, creates it with schema `date Date` followed by the
`col/col_min/col_max` triple (all of the source type) per retained pair in
order, and records the source table as updated exactly when the forecast
table existed and as new exactly when it did not. -/
theorem claim_C6_create_schema_and_bookkeeping (tbl : String)
    (columns types : List String) (ex : Bool) (st : RunState) :
    (create_forecast_table tbl columns types ex st).2.dropped = ex ∧
    (create_forecast_table tbl columns types ex st).2.schema =
      ("date", "Date") ::
        ((columns.zip types).flatMap fun p =>
          [(p.1, p.2), (p.1 ++ "_min", p.2), (p.1 ++ "_max", p.2)]) ∧
    (create_forecast_table tbl columns types ex st).1.updated_tables =
      st.updated_tables ++ (if ex then [tbl] else []) ∧
    (create_forecast_table tbl columns types ex st).1.new_tables =
      st.new_tables ++ (if ex then [] else [tbl]) := by
  cases ex <;> simp [create_forecast_table]

/-- Claim C9: with no source rows, `forecast_table` appends the table to the
failed list and returns before fitting anything or issuing any insert; the
successful list is untouched. -/
theorem claim_C9_empty_source (tbl : String) (columns : List String)
    (dataDates : List Int) (eng : String → ColEngine) (onlyF : Bool) (st : RunState)
    (hdd : dataDates = []) :
    (forecast_table tbl columns dataDates eng onlyF st).1.failed_tables =
      st.failed_tables ++ [tbl] ∧
    (forecast_table tbl columns dataDates eng onlyF st).1.successful_tables =
      st.successful_tables ∧
    (forecast_table tbl columns dataDates eng onlyF st).2 = none := by
  subst hdd
  simp [forecast_table]

theorem claim_C9_witness :
    (forecast_table "t" ["c"] []
        (fun _ => ⟨false, [], fun _ => 0, fun _ => 0, fun _ => 0⟩) false
        ⟨[], [], [], [], []⟩).1.failed_tables = ["t"] ∧
    (forecast_table "t" ["c"] []
        (fun _ => ⟨false, [], fun _ => 0, fun _ => 0, fun _ => 0⟩) false
        ⟨[], [], [], [], []⟩).1.successful_tables = [] ∧
    (forecast_table "t" ["c"] []
        (fun _ => ⟨false, [], fun _ => 0, fun _ => 0, fun _ => 0⟩) false
        ⟨[], [], [], [], []⟩).2 = none :=
  claim_C9_empty_source "t" ["c"] []
    (fun _ => ⟨false, [], fun _ => 0, fun _ => 0, fun _ => 0⟩) false
    ⟨[], [], [], [], []⟩ rfl

theorem colFold_snd (tbl : String) (eng : String → ColEngine) (last : Int)
    (onlyF : Bool) (cols : List String) :
    ∀ (fd : List (Int × Row)) (st : RunState),
      (cols.foldl (colStep tbl eng last onlyF) (fd, st)).2 =
        { st with failed_tables :=
            st.failed_tables ++ (cols.filter fun c => (eng c).fitFails).map fun _ => tbl } := by
  induction cols with
  | nil => intro fd st; simp
  | cons c cs ih =>
    intro fd st
    cases h : (eng c).fitFails with
    | true =>
      simp only [List.foldl_cons, colStep, h, if_true]
      rw [ih]
      simp [h, List.filter_cons]
    | false =>
      simp only [List.foldl_cons, colStep, h, Bool.false_eq_true, if_false]
      rw [ih]
      simp [h, List.filter_cons]

theorem colFold_fst (tbl : String) (eng : String → ColEngine) (last : Int)
    (onlyF : Bool) (cols : List String) :
    ∀ (fd : List (Int × Row)) (st : RunState),
      (cols.foldl (colStep tbl eng last onlyF) (fd, st)).1 =
        cols.foldl (colPoints eng last onlyF) fd := by
  induction cols with
  | nil => intro fd st; rfl
  | cons c cs ih =>
    intro fd st
    cases h : (eng c).fitFails with
    | true =>
      simp only [List.foldl_cons, colStep, colPoints, h, if_true]
      exact ih fd _
    | false =>
      simp only [List.foldl_cons, colStep, colPoints, h, Bool.false_eq_true, if_false]
      exact ih _ st

/-- Claim C10: the summary line reports `len(successful)+len(skipped)` as
the successful figure, the sizes of the new and updated lists,
`len(skipped)-len(failed)` (Python integer subtraction, possibly negative)
as the skipped figure, and `len(failed)` as the failed figure; moreover the
failed list receives exactly one append per failing column of a processed
table, so k failing columns contribute k entries. (The summary's elapsed
time is wall-clock I/O and is outside the embedding.) -/
theorem claim_C10_summary_counts (st : RunState) (tbl : String)
    (columns : List String) (dataDates : List Int) (eng : String → ColEngine)
    (onlyF : Bool) (st' : RunState) (hdd : dataDates ≠ []) :
    summaryCounts st =
      (st.successful_tables.length + st.skipped_tables.length,
       st.new_tables.length,
       st.updated_tables.length,
       (st.skipped_tables.length : Int) - (st.failed_tables.length : Int),
       st.failed_tables.length) ∧
    (forecast_table tbl columns dataDates eng onlyF st').1.failed_tables =
      st'.failed_tables ++ (columns.filter fun c => (eng c).fitFails).map fun _ => tbl := by
  refine ⟨rfl, ?_⟩
  unfold forecast_table
  rw [if_neg (by simp [hdd])]
  simp [colFold_snd]

theorem claim_C10_summary_counts_witness :
    summaryCounts ⟨["s"], ["n"], [], ["f1", "f2"], ["k"]⟩ =
      (2, 1, 0, (-1 : Int), 2) ∧
    (forecast_table "t" ["a", "b", "c"] [5]
        (fun c => if c = "a" then ⟨false, [], fun _ => 0, fun _ => 0, fun _ => 0⟩
                  else ⟨true, [], fun _ => 0, fun _ => 0, fun _ => 0⟩)
        false ⟨[], [], [], [], []⟩).1.failed_tables = ["t", "t"] :=
  claim_C10_summary_counts ⟨["s"], ["n"], [], ["f1", "f2"], ["k"]⟩ "t" ["a", "b", "c"] [5]
    (fun c => if c = "a" then ⟨false, [], fun _ => 0, fun _ => 0, fun _ => 0⟩
              else ⟨true, [], fun _ => 0, fun _ => 0, fun _ => 0⟩)
    false ⟨[], [], [], [], []⟩ (by decide)

/-- Claim C8: when the accumulated forecast-row dict is empty (here reached
because source data exists but no column contributed, e.g. every column
failed), no insert statement is issued, and the table is still appended to
the successful list. -/
theorem claim_C8_empty_rows_still_successful (tbl : String) (columns : List String)
    (dataDates : List Int) (eng : String → ColEngine) (onlyF : Bool) (st : RunState)
    (hdd : dataDates ≠ [])
    (hfd : forecastDataOf columns eng (listMax dataDates) onlyF = []) :
    (forecast_table tbl columns dataDates eng onlyF st).2 = none ∧
    (forecast_table tbl columns dataDates eng onlyF st).1.successful_tables =
      st.successful_tables ++ [tbl] := by
  unfold forecastDataOf at hfd
  unfold forecast_table
  rw [if_neg (by simp [hdd])]
  simp [colFold_fst, colFold_snd, hfd]

theorem claim_C8_empty_rows_still_successful_witness :
    (forecast_table "t" ["c"] [5]
        (fun _ => ⟨true, [7], fun _ => 0, fun _ => 0, fun _ => 0⟩) false
        ⟨["x"], [], [], [], []⟩).2 = none ∧
    (forecast_table "t" ["c"] [5]
        (fun _ => ⟨true, [7], fun _ => 0, fun _ => 0, fun _ => 0⟩) false
        ⟨["x"], [], [], [], []⟩).1.successful_tables = ["x", "t"] :=
  claim_C8_empty_rows_still_successful "t" ["c"] [5]
    (fun _ => ⟨true, [7], fun _ => 0, fun _ => 0, fun _ => 0⟩) false
    ⟨["x"], [], [], [], []⟩ (by decide) (by decide)

theorem addPoint_keys (fd : List (Int × Row)) (d : Int) (c : String) (vh vl vu : Int) :
    ∀ q ∈ addPoint fd d c vh vl vu, q.1 = d ∨ q.1 ∈ fd.map Prod.fst := by
  intro q hq
  unfold addPoint updateAt at hq
  rcases List.mem_map.mp hq with ⟨p, hp, hpe⟩
  have hq1 : q.1 = p.1 := by
    split at hpe <;> rw [← hpe]
  have hpmem : p ∈ fd ∨ p.1 = d := by
    split at hp
    · exact Or.inl hp
    · rcases List.mem_append.mp hp with h | h
      · exact Or.inl h
      · right
        have : p = (d, [("date", d)]) := by simpa using h
        rw [this]
  rcases hpmem with h | h
  · exact Or.inr (hq1 ▸ List.mem_map_of_mem Prod.fst h)
  · exact Or.inl (hq1.trans h)

theorem pointsFold_keys (c : String) (vhf vlf vuf : Int → Int) (P : Int → Prop) :
    ∀ (ds : List Int) (fd : List (Int × Row)),
      (∀ q ∈ fd, P q.1) → (∀ d ∈ ds, P d) →
      ∀ q ∈ ds.foldl (fun fd d => addPoint fd d c (vhf d) (vlf d) (vuf d)) fd, P q.1 := by
  intro ds
  induction ds with
  | nil => intro fd h _ q hq; exact h q hq
  | cons d ds ih =>
    intro fd h hds q hq
    simp only [List.foldl_cons] at hq
    refine ih _ ?_ (fun d' hd' => hds _ (List.mem_cons_of_mem _ hd')) q hq
    intro q' hq'
    rcases addPoint_keys fd d c (vhf d) (vlf d) (vuf d) q' hq' with h1 | h2
    · exact h1 ▸ hds d (List.mem_cons_self _ _)
    · rcases List.mem_map.mp h2 with ⟨p, hpmem, hpe⟩
      exact hpe ▸ h p hpmem

theorem colPointsFold_keys (eng : String → ColEngine) (last : Int) (onlyF : Bool)
    (P : Int → Prop) :
    ∀ (cols : List String) (fd : List (Int × Row)),
      (∀ q ∈ fd, P q.1) →
      (∀ c ∈ cols, (eng c).fitFails = false → ∀ d ∈ effFuture eng last onlyF c, P d) →
      ∀ q ∈ cols.foldl (colPoints eng last onlyF) fd, P q.1 := by
  intro cols
  induction cols with
  | nil => intro fd h _ q hq; exact h q hq
  | cons c cs ih =>
    intro fd h hcols q hq
    simp only [List.foldl_cons] at hq
    refine ih _ ?_ (fun c' hc' hfc' => hcols _ (List.mem_cons_of_mem _ hc') hfc') q hq
    intro q' hq'
    unfold colPoints at hq'
    cases hfit : (eng c).fitFails with
    | true => simp only [hfit, if_true] at hq'; exact h q' hq'
    | false =>
      simp only [hfit, Bool.false_eq_true, if_false] at hq'
      exact pointsFold_keys c _ _ _ P _ fd h
        (hcols c (List.mem_cons_self _ _) hfit) q' hq'

theorem string_data_inj {s t : String} (h : s.data = t.data) : s = t := by
  cases s
  cases t
  exact congrArg String.mk (by simpa using h)

theorem strAppend_data (a b : String) : (a ++ b).data = a.data ++ b.data := by
  cases a
  cases b
  rfl

theorem append_suffix_ne (a s t : String) (hlen : s.data.length = t.data.length)
    (hne : s.data ≠ t.data) : a ++ s ≠ t := by
  intro h
  have hd : a.data ++ s.data = t.data := by
    rw [← strAppend_data]
    exact congrArg String.data h
  have hl : a.data.length + s.data.length = t.data.length := by
    rw [← hd]
    simp
  have ha : a.data = [] := by
    rw [hlen] at hl
    have h0 : a.data.length = 0 := by omega
    exact List.length_eq_zero.mp h0
  apply hne
  simpa [ha] using hd

theorem self_ne_append (a s : String) (hs : s.data ≠ []) : a ≠ a ++ s := by
  intro h
  have hd : a.data = a.data ++ s.data := by
    rw [← strAppend_data]
    exact congrArg String.data h
  have hl : a.data.length = a.data.length + s.data.length := by
    conv_lhs => rw [hd]
    simp
  have h0 : s.data.length = 0 := by omega
  exact hs (List.length_eq_zero.mp h0)

theorem append_left_ne (a s t : String) (hne : s.data ≠ t.data) : a ++ s ≠ a ++ t := by
  intro h
  have hd : a.data ++ s.data = a.data ++ t.data := by
    rw [← strAppend_data, ← strAppend_data]
    exact congrArg String.data h
  apply hne
  have hdrop := congrArg (List.drop a.data.length) hd
  simpa [List.drop_left] using hdrop

theorem min_ne_date (c : String) : c ++ "_min" ≠ "date" :=
  append_suffix_ne c "_min" "date" (by decide) (by decide)

theorem max_ne_date (c : String) : c ++ "_max" ≠ "date" :=
  append_suffix_ne c "_max" "date" (by decide) (by decide)

theorem min_ne_max_key (c : String) : c ++ "_min" ≠ c ++ "_max" :=
  append_left_ne c "_min" "_max" (by decide)

theorem self_ne_min_key (c : String) : c ≠ c ++ "_min" :=
  self_ne_append c "_min" (by decide)

theorem self_ne_max_key (c : String) : c ≠ c ++ "_max" :=
  self_ne_append c "_max" (by decide)

theorem lookupF_map_set (r : Row) (k : String) (v : Int) (k' : String) (h : k' ≠ k) :
    lookupF (r.map fun p => if p.1 == k then (p.1, v) else p) k' = lookupF r k' := by
  induction r with
  | nil => rfl
  | cons p rest ih =>
    simp only [List.map_cons]
    cases hpk : p.1 == k with
    | true =>
      have hpk' : p.1 = k := by simpa using hpk
      have hne : (p.1 == k') = false := by
        simp [hpk']
        exact fun he => h he.symm
      simp only [hpk, if_true, lookupF, hne, Bool.false_eq_true, if_false]
      exact ih
    | false =>
      simp only [hpk, Bool.false_eq_true, if_false, lookupF]
      cases hpk2 : p.1 == k' with
      | true => simp [hpk2]
      | false => simp only [hpk2, Bool.false_eq_true, if_false]; exact ih

theorem lookupF_append_one (r : Row) (k : String) (v : Int) (k' : String) (h : k' ≠ k) :
    lookupF (r ++ [(k, v)]) k' = lookupF r k' := by
  induction r with
  | nil =>
    have hne : (k == k') = false := by
      simp
      exact fun he => h he.symm
    simp [lookupF, hne]
  | cons p rest ih =>
    simp only [List.cons_append, lookupF]
    cases hpk : p.1 == k' with
    | true => simp [hpk]
    | false => simp only [hpk, Bool.false_eq_true, if_false]; exact ih

theorem lookupF_setField_ne (r : Row) (k : String) (v : Int) (k' : String) (h : k' ≠ k) :
    lookupF (setField r k v) k' = lookupF r k' := by
  unfold setField
  split
  · exact lookupF_map_set r k v k' h
  · exact lookupF_append_one r k v k' h

theorem addPoint_dateField (fd : List (Int × Row)) (d : Int) (c : String)
    (vh vl vu : Int) (hc : c ≠ "date")
    (hinv : ∀ q ∈ fd, lookupF q.2 "date" = some q.1) :
    ∀ q ∈ addPoint fd d c vh vl vu, lookupF q.2 "date" = some q.1 := by
  intro q hq
  unfold addPoint updateAt at hq
  rcases List.mem_map.mp hq with ⟨p, hp, hpe⟩
  have hbase : lookupF p.2 "date" = some p.1 := by
    split at hp
    · exact hinv p hp
    · rcases List.mem_append.mp hp with hmem | hmem
      · exact hinv p hmem
      · have hpd : p = (d, [("date", d)]) := by simpa using hmem
        rw [hpd]
        rfl
  split at hpe
  · rw [← hpe]
    simp only
    rw [lookupF_setField_ne _ _ _ _ (Ne.symm (max_ne_date c)),
        lookupF_setField_ne _ _ _ _ (Ne.symm (min_ne_date c)),
        lookupF_setField_ne _ _ _ _ (Ne.symm hc)]
    exact hbase
  · rw [← hpe]
    exact hbase

theorem pointsFold_dateField (c : String) (vhf vlf vuf : Int → Int) (hc : c ≠ "date") :
    ∀ (ds : List Int) (fd : List (Int × Row)),
      (∀ q ∈ fd, lookupF q.2 "date" = some q.1) →
      ∀ q ∈ ds.foldl (fun fd d => addPoint fd d c (vhf d) (vlf d) (vuf d)) fd,
        lookupF q.2 "date" = some q.1 := by
  intro ds
  induction ds with
  | nil => intro fd h q hq; exact h q hq
  | cons d ds ih =>
    intro fd h q hq
    simp only [List.foldl_cons] at hq
    exact ih _ (addPoint_dateField fd d c _ _ _ hc h) q hq

theorem colPointsFold_dateField (eng : String → ColEngine) (last : Int) (onlyF : Bool) :
    ∀ (cols : List String) (fd : List (Int × Row)),
      (∀ c ∈ cols, c ≠ "date") →
      (∀ q ∈ fd, lookupF q.2 "date" = some q.1) →
      ∀ q ∈ cols.foldl (colPoints eng last onlyF) fd, lookupF q.2 "date" = some q.1 := by
  intro cols
  induction cols with
  | nil => intro fd _ h q hq; exact h q hq
  | cons c cs ih =>
    intro fd hcols h q hq
    simp only [List.foldl_cons] at hq
    refine ih _ (fun c' hc' => hcols _ (List.mem_cons_of_mem _ hc')) ?_ q hq
    intro q' hq'
    unfold colPoints at hq'
    cases hfit : (eng c).fitFails with
    | true => simp only [hfit, if_true] at hq'; exact h q' hq'
    | false =>
      simp only [hfit, Bool.false_eq_true, if_false] at hq'
      exact pointsFold_dateField c _ _ _ (hcols c (List.mem_cons_self _ _)) _ fd h q' hq'

theorem forecast_table_some (tbl : String) (columns : List String) (dataDates : List Int)
    (eng : String → ColEngine) (onlyF : Bool) (st : RunState) (s : InsertStmt)
    (hs : (forecast_table tbl columns dataDates eng onlyF st).2 = some s) :
    dataDates ≠ [] ∧
    forecastDataOf columns eng (listMax dataDates) onlyF ≠ [] ∧
    s = buildInsert tbl columns (forecastDataOf columns eng (listMax dataDates) onlyF) := by
  unfold forecast_table at hs
  by_cases hdd : dataDates.isEmpty
  · rw [if_pos hdd] at hs
    exact absurd hs (by simp)
  · rw [if_neg hdd] at hs
    simp only [colFold_fst] at hs
    unfold forecastDataOf
    split at hs
    · exact absurd hs (by simp)
    · next hne =>
      refine ⟨by simpa [List.isEmpty_iff] using hdd, ?_, (Option.some.inj hs).symm⟩
      simpa [List.isEmpty_iff] using hne

/-- Claim C5: for a table with source data, with `only_future=true` every
row handed to the insert has a date strictly greater than the last observed
date; with `only_future=false` the emitted dates are exactly those the
forecasting engine returned for some successfully fitted column, which may
include dates inside the historical range. (The hypothesis that no column
is literally named `date` always holds for the program's own column lists,
since `get_columns_and_types` filters that name out.) -/
theorem claim_C5_only_future_filter (tbl : String) (columns : List String)
    (dataDates : List Int) (eng : String → ColEngine) (onlyF : Bool) (st : RunState)
    (s : InsertStmt)
    (hdate : ∀ c ∈ columns, c ≠ "date")
    (hs : (forecast_table tbl columns dataDates eng onlyF st).2 = some s) :
    (onlyF = true → ∀ q ∈ s.rows, listMax dataDates < q.1) ∧
    (onlyF = false → ∀ q ∈ s.rows,
      ∃ c ∈ columns, (eng c).fitFails = false ∧ q.1 ∈ (eng c).future) := by
  obtain ⟨hdd, hne, hsb⟩ := forecast_table_some tbl columns dataDates eng onlyF st s hs
  subst hsb
  constructor
  · rintro rfl q hq
    simp only [buildInsert] at hq
    rcases List.mem_map.mp hq with ⟨p, hp, hpe⟩
    unfold forecastDataOf at hp
    have hdf : lookupF p.2 "date" = some p.1 :=
      colPointsFold_dateField eng (listMax dataDates) true columns [] hdate (by simp) p hp
    have hkey : listMax dataDates < p.1 := by
      refine colPointsFold_keys eng (listMax dataDates) true
        (fun x => listMax dataDates < x) columns [] (by simp) ?_ p hp
      intro c hc hfc d hd
      unfold effFuture at hd
      simp only [if_true, List.mem_filter, decide_eq_true_eq] at hd
      exact hd.2
    rw [← hpe]
    simpa [hdf] using hkey
  · rintro rfl q hq
    simp only [buildInsert] at hq
    rcases List.mem_map.mp hq with ⟨p, hp, hpe⟩
    unfold forecastDataOf at hp
    have hdf : lookupF p.2 "date" = some p.1 :=
      colPointsFold_dateField eng (listMax dataDates) false columns [] hdate (by simp) p hp
    have hkey : ∃ c ∈ columns, (eng c).fitFails = false ∧ p.1 ∈ (eng c).future := by
      refine colPointsFold_keys eng (listMax dataDates) false
        (fun x => ∃ c ∈ columns, (eng c).fitFails = false ∧ x ∈ (eng c).future)
        columns [] (by simp) ?_ p hp
      intro c hc hfc d hd
      unfold effFuture at hd
      simp only [Bool.false_eq_true, if_false] at hd
      exact ⟨c, hc, hfc, hd⟩
    rw [← hpe]
    simpa [hdf] using hkey

theorem claim_C5_only_future_filter_witness :
    (true = true →
      ∀ q ∈ (InsertStmt.mk "bucket_forecast_" ["date", "c", "c_min", "c_max"]
          [(6, [Cell.val 7, Cell.val 5, Cell.val 8])]).rows,
        listMax [5] < q.1) ∧
    (true = false →
      ∀ q ∈ (InsertStmt.mk "bucket_forecast_" ["date", "c", "c_min", "c_max"]
          [(6, [Cell.val 7, Cell.val 5, Cell.val 8])]).rows,
        ∃ c ∈ ["c"],
          ((fun _ => (⟨false, [3, 6], fun d => d + 1, fun d => d - 1, fun d => d + 2⟩ : ColEngine))
              c).fitFails = false ∧
          q.1 ∈ ((fun _ => (⟨false, [3, 6], fun d => d + 1, fun d => d - 1, fun d => d + 2⟩ : ColEngine))
              c).future) :=
  claim_C5_only_future_filter "t" ["c"] [5]
    (fun _ => ⟨false, [3, 6], fun d => d + 1, fun d => d - 1, fun d => d + 2⟩) true
    ⟨[], [], [], [], []⟩
    ⟨"bucket_forecast_", ["date", "c", "c_min", "c_max"],
      [(6, [Cell.val 7, Cell.val 5, Cell.val 8])]⟩
    (by decide) (by decide)

/-- Claim C7: whenever `forecast_table` issues an insert, it is one single
statement whose column header is `date`, then every retained column's
estimate name, then every `_min` name, then every `_max` name, in that
order; it has one VALUES tuple per collected forecast row (rows with
missing fields are not omitted), each tuple carrying one cell per header
column; and a field renders as the NULL literal exactly when the row's dict
has no entry under that key. -/
theorem claim_C7_insert_shape (tbl : String) (columns : List String)
    (dataDates : List Int) (eng : String → ColEngine) (onlyF : Bool) (st : RunState)
    (s : InsertStmt)
    (hs : (forecast_table tbl columns dataDates eng onlyF st).2 = some s) :
    s.cols = "date" :: (columns ++ (columns.map fun c => c ++ "_min")
      ++ (columns.map fun c => c ++ "_max")) ∧
    s.rows.length = (forecastDataOf columns eng (listMax dataDates) onlyF).length ∧
    (∀ q ∈ s.rows, q.2.length = columns.length + columns.length + columns.length) ∧
    (∀ (r : Row) (k : String), cellOf r k = Cell.null ↔ lookupF r k = none) := by
  obtain ⟨hdd, hne, hsb⟩ := forecast_table_some tbl columns dataDates eng onlyF st s hs
  subst hsb
  refine ⟨rfl, by simp [buildInsert], ?_, ?_⟩
  · intro q hq
    simp only [buildInsert] at hq
    rcases List.mem_map.mp hq with ⟨p, hp, hpe⟩
    rw [← hpe]
    simp [rowCells]
    omega
  · intro r k
    unfold cellOf
    cases h : lookupF r k <;> simp

theorem claim_C7_insert_shape_witness :
    (InsertStmt.mk "bucket_forecast_" ["date", "c", "c_min", "c_max"]
        [(3, [Cell.val 4, Cell.val 2, Cell.val 5]),
         (6, [Cell.val 7, Cell.val 5, Cell.val 8])]).cols =
      "date" :: (["c"] ++ ((["c"] : List String).map fun c => c ++ "_min")
        ++ ((["c"] : List String).map fun c => c ++ "_max")) ∧
    (InsertStmt.mk "bucket_forecast_" ["date", "c", "c_min", "c_max"]
        [(3, [Cell.val 4, Cell.val 2, Cell.val 5]),
         (6, [Cell.val 7, Cell.val 5, Cell.val 8])]).rows.length =
      (forecastDataOf ["c"]
        (fun _ => ⟨false, [3, 6], fun d => d + 1, fun d => d - 1, fun d => d + 2⟩)
        (listMax [5]) false).length ∧
    (∀ q ∈ (InsertStmt.mk "bucket_forecast_" ["date", "c", "c_min", "c_max"]
        [(3, [Cell.val 4, Cell.val 2, Cell.val 5]),
         (6, [Cell.val 7, Cell.val 5, Cell.val 8])]).rows,
      q.2.length = (["c"] : List String).length + (["c"] : List String).length
        + (["c"] : List String).length) ∧
    (∀ (r : Row) (k : String), cellOf r k = Cell.null ↔ lookupF r k = none) :=
  claim_C7_insert_shape "t" ["c"] [5]
    (fun _ => ⟨false, [3, 6], fun d => d + 1, fun d => d - 1, fun d => d + 2⟩) false
    ⟨[], [], [], [], []⟩
    ⟨"bucket_forecast_", ["date", "c", "c_min", "c_max"],
      [(3, [Cell.val 4, Cell.val 2, Cell.val 5]),
       (6, [Cell.val 7, Cell.val 5, Cell.val 8])]⟩
    (by decide)

theorem addPoint_ne_nil (fd : List (Int × Row)) (d : Int) (c : String) (vh vl vu : Int) :
    addPoint fd d c vh vl vu ≠ [] := by
  unfold addPoint updateAt
  split
  · next h =>
    have : fd ≠ [] := by
      intro he
      rw [he] at h
      simp at h
    simpa using this
  · simp

theorem pointsFold_ne_nil (c : String) (vhf vlf vuf : Int → Int) :
    ∀ (ds : List Int) (fd : List (Int × Row)), ds ≠ [] ∨ fd ≠ [] →
      ds.foldl (fun fd d => addPoint fd d c (vhf d) (vlf d) (vuf d)) fd ≠ [] := by
  intro ds
  induction ds with
  | nil =>
    intro fd h
    rcases h with h | h
    · exact absurd rfl h
    · simpa using h
  | cons d ds ih =>
    intro fd _
    simp only [List.foldl_cons]
    exact ih _ (Or.inr (addPoint_ne_nil fd d c (vhf d) (vlf d) (vuf d)))

theorem buildRow_new (c : String) (d vh vl vu : Int) (hc : c ≠ "date") :
    setField (setField (setField [("date", d)] c vh) (c ++ "_min") vl) (c ++ "_max") vu
      = [("date", d), (c, vh), (c ++ "_min", vl), (c ++ "_max", vu)] := by
  have hd_c : ¬(("date" : String) = c) := fun h => hc h.symm
  have hd_min : ¬(("date" : String) = c ++ "_min") := Ne.symm (min_ne_date c)
  have hc_min : ¬(c = c ++ "_min") := self_ne_min_key c
  have hd_max : ¬(("date" : String) = c ++ "_max") := Ne.symm (max_ne_date c)
  have hc_max : ¬(c = c ++ "_max") := self_ne_max_key c
  have hmin_max : ¬(c ++ "_min" = c ++ "_max") := min_ne_max_key c
  simp [setField, hd_c, hd_min, hc_min, hd_max, hc_max, hmin_max]

theorem buildRow_update (c : String) (yh yl yu : Int → Int) (d : Int)
    (vh vl vu : Int) (hc : c ≠ "date") :
    setField (setField (setField (fullRow c yh yl yu d) c vh) (c ++ "_min") vl)
        (c ++ "_max") vu
      = [("date", d), (c, vh), (c ++ "_min", vl), (c ++ "_max", vu)] := by
  have hd_c : ¬(("date" : String) = c) := fun h => hc h.symm
  have hd_min : ¬(("date" : String) = c ++ "_min") := Ne.symm (min_ne_date c)
  have hc_min : ¬(c = c ++ "_min") := self_ne_min_key c
  have hd_max : ¬(("date" : String) = c ++ "_max") := Ne.symm (max_ne_date c)
  have hc_max : ¬(c = c ++ "_max") := self_ne_max_key c
  have hmin_max : ¬(c ++ "_min" = c ++ "_max") := min_ne_max_key c
  simp [fullRow, setField, hd_c, hd_min, hc_min, hd_max, hc_max, hmin_max,
    Ne.symm hc_min, Ne.symm hc_max, Ne.symm hmin_max]

theorem addPoint_fullRow (c : String) (yh yl yu : Int → Int) (hc : c ≠ "date")
    (fd : List (Int × Row)) (d : Int)
    (hinv : ∀ q ∈ fd, q.2 = fullRow c yh yl yu q.1) :
    ∀ q ∈ addPoint fd d c (yh d) (yl d) (yu d), q.2 = fullRow c yh yl yu q.1 := by
  intro q hq
  unfold addPoint updateAt at hq
  rcases List.mem_map.mp hq with ⟨p, hp, hpe⟩
  have hprow : p.2 = fullRow c yh yl yu p.1 ∨ p = (d, [("date", d)]) := by
    split at hp
    · exact Or.inl (hinv p hp)
    · rcases List.mem_append.mp hp with h | h
      · exact Or.inl (hinv p h)
      · exact Or.inr (by simpa using h)
  split at hpe
  · next hpd =>
    have hpd' : p.1 = d := by simpa using hpd
    rw [← hpe]
    show setField (setField (setField p.2 c (yh d)) (c ++ "_min") (yl d)) (c ++ "_max") (yu d)
      = fullRow c yh yl yu p.1
    rcases hprow with h | h
    · rw [h, hpd', buildRow_update c yh yl yu d (yh d) (yl d) (yu d) hc, fullRow]
    · have h2 : p.2 = [("date", d)] := by rw [h]
      rw [h2, hpd', buildRow_new c d (yh d) (yl d) (yu d) hc, fullRow]
  · next hpd =>
    rw [← hpe]
    rcases hprow with h | h
    · exact h
    · exfalso
      apply hpd
      rw [h]
      simp

theorem pointsFold_fullRow (c : String) (yh yl yu : Int → Int) (hc : c ≠ "date") :
    ∀ (ds : List Int) (fd : List (Int × Row)),
      (∀ q ∈ fd, q.2 = fullRow c yh yl yu q.1) →
      ∀ q ∈ ds.foldl (fun fd d => addPoint fd d c (yh d) (yl d) (yu d)) fd,
        q.2 = fullRow c yh yl yu q.1 := by
  intro ds
  induction ds with
  | nil => intro fd h q hq; exact h q hq
  | cons d ds ih =>
    intro fd h q hq
    simp only [List.foldl_cons] at hq
    exact ih _ (addPoint_fullRow c yh yl yu hc fd d h) q hq

/-- Claim C2: for a table with two retained columns where `a`'s fit/predict
succeeds (producing at least one forecast date) and `b`'s raises, the run
still issues an insert whose rows carry `a`'s estimate/min/max values, the
table lands in both the successful and the failed accumulator lists, and
`b` contributes no entry to any row — its three fields render as NULL. The
`Nodup` hypothesis says the seven dict keys in play are pairwise distinct,
which always holds for the program's own column lists (distinct non-`date`
ClickHouse column names). -/
theorem claim_C2_partial_column_failure (tbl a b : String) (dataDates : List Int)
    (eng : String → ColEngine) (onlyF : Bool) (st : RunState)
    (hnd : (["date", a, a ++ "_min", a ++ "_max", b, b ++ "_min", b ++ "_max"] :
      List String).Nodup)
    (hdd : dataDates ≠ [])
    (ha : (eng a).fitFails = false) (hb : (eng b).fitFails = true)
    (heff : effFuture eng (listMax dataDates) onlyF a ≠ []) :
    tbl ∈ (forecast_table tbl [a, b] dataDates eng onlyF st).1.successful_tables ∧
    tbl ∈ (forecast_table tbl [a, b] dataDates eng onlyF st).1.failed_tables ∧
    ∃ s, (forecast_table tbl [a, b] dataDates eng onlyF st).2 = some s ∧
      s.rows ≠ [] ∧
      ∀ q ∈ s.rows,
        q.2 = [Cell.val ((eng a).yhat q.1), Cell.null,
               Cell.val ((eng a).ylo q.1), Cell.null,
               Cell.val ((eng a).yhi q.1), Cell.null] := by
  simp only [List.nodup_cons, List.mem_cons, List.not_mem_nil, or_false, not_or,
    List.nodup_nil, and_true] at hnd
  obtain ⟨⟨hda, _, _, hdb, hdbm, hdbx⟩, ⟨_, _, hab, habm, habx⟩,
    ⟨_, hamb, hambm, hambx⟩, ⟨haxb, haxbm, haxbx⟩, _, hbmbx, _⟩ := hnd
  have hfold : ([a, b].foldl (colPoints eng (listMax dataDates) onlyF)
        ([] : List (Int × Row)))
      = (effFuture eng (listMax dataDates) onlyF a).foldl
          (fun fd d => addPoint fd d a ((eng a).yhat d) ((eng a).ylo d) ((eng a).yhi d))
          [] := by
    simp [colPoints, ha, hb]
  have hneA : (effFuture eng (listMax dataDates) onlyF a).foldl
      (fun fd d => addPoint fd d a ((eng a).yhat d) ((eng a).ylo d) ((eng a).yhi d))
      [] ≠ [] :=
    pointsFold_ne_nil a _ _ _ _ _ (Or.inl heff)
  have hrows : ∀ q ∈ (effFuture eng (listMax dataDates) onlyF a).foldl
      (fun fd d => addPoint fd d a ((eng a).yhat d) ((eng a).ylo d) ((eng a).yhi d)) [],
      q.2 = fullRow a (eng a).yhat (eng a).ylo (eng a).yhi q.1 :=
    pointsFold_fullRow a _ _ _ (fun h => hda h.symm) _ [] (by simp)
  have hlk : ∀ (x : Int),
      lookupF (fullRow a (eng a).yhat (eng a).ylo (eng a).yhi x) "date" = some x := by
    intro x
    simp [fullRow, lookupF]
  have hcells : ∀ (x : Int),
      rowCells [a, b] (fullRow a (eng a).yhat (eng a).ylo (eng a).yhi x)
        = [Cell.val ((eng a).yhat x), Cell.null,
           Cell.val ((eng a).ylo x), Cell.null,
           Cell.val ((eng a).yhi x), Cell.null] := by
    intro x
    simp [rowCells, cellOf, lookupF, fullRow, hda, hdb, hdbm, hdbx, hab, habm, habx,
      hamb, hambm, hambx, haxb, haxbm, haxbx,
      Ne.symm (min_ne_date a), self_ne_min_key a,
      Ne.symm (max_ne_date a), self_ne_max_key a, min_ne_max_key a,
      Ne.symm (min_ne_date b), Ne.symm (max_ne_date b)]
  unfold forecast_table
  rw [if_neg (by simp [hdd])]
  simp only [colFold_snd, colFold_fst, hfold]
  refine ⟨by simp, by simp [ha, hb], ?_⟩
  rw [if_neg (by simpa [List.isEmpty_iff] using hneA)]
  refine ⟨_, rfl, by simp [buildInsert, hneA], ?_⟩
  intro q hq
  simp only [buildInsert] at hq
  rcases List.mem_map.mp hq with ⟨p, hp, hpe⟩
  rw [← hpe]
  show rowCells [a, b] p.2
    = [Cell.val ((eng a).yhat ((lookupF p.2 "date").getD 0)), Cell.null,
       Cell.val ((eng a).ylo ((lookupF p.2 "date").getD 0)), Cell.null,
       Cell.val ((eng a).yhi ((lookupF p.2 "date").getD 0)), Cell.null]
  rw [hrows p hp, hlk p.1]
  exact hcells p.1

theorem claim_C2_partial_column_failure_witness :
    "t" ∈ (forecast_table "t" ["a", "b"] [0]
      (fun c => if c = "a"
        then (⟨false, [1], fun d => d + 10, fun d => d, fun d => d + 20⟩ : ColEngine)
        else ⟨true, [], fun _ => 0, fun _ => 0, fun _ => 0⟩) false
      ⟨[], [], [], [], []⟩).1.successful_tables ∧
    "t" ∈ (forecast_table "t" ["a", "b"] [0]
      (fun c => if c = "a"
        then (⟨false, [1], fun d => d + 10, fun d => d, fun d => d + 20⟩ : ColEngine)
        else ⟨true, [], fun _ => 0, fun _ => 0, fun _ => 0⟩) false
      ⟨[], [], [], [], []⟩).1.failed_tables ∧
    ∃ s, (forecast_table "t" ["a", "b"] [0]
      (fun c => if c = "a"
        then (⟨false, [1], fun d => d + 10, fun d => d, fun d => d + 20⟩ : ColEngine)
        else ⟨true, [], fun _ => 0, fun _ => 0, fun _ => 0⟩) false
      ⟨[], [], [], [], []⟩).2 = some s ∧
      s.rows ≠ [] ∧
      ∀ q ∈ s.rows,
        q.2 = [Cell.val (((fun c => if c = "a"
                 then (⟨false, [1], fun d => d + 10, fun d => d, fun d => d + 20⟩ : ColEngine)
                 else ⟨true, [], fun _ => 0, fun _ => 0, fun _ => 0⟩) "a").yhat q.1), Cell.null,
               Cell.val (((fun c => if c = "a"
                 then (⟨false, [1], fun d => d + 10, fun d => d, fun d => d + 20⟩ : ColEngine)
                 else ⟨true, [], fun _ => 0, fun _ => 0, fun _ => 0⟩) "a").ylo q.1), Cell.null,
               Cell.val (((fun c => if c = "a"
                 then (⟨false, [1], fun d => d + 10, fun d => d, fun d => d + 20⟩ : ColEngine)
                 else ⟨true, [], fun _ => 0, fun _ => 0, fun _ => 0⟩) "a").yhi q.1), Cell.null] :=
  claim_C2_partial_column_failure "t" "a" "b" [0]
    (fun c => if c = "a"
      then (⟨false, [1], fun d => d + 10, fun d => d, fun d => d + 20⟩ : ColEngine)
      else ⟨true, [], fun _ => 0, fun _ => 0, fun _ => 0⟩) false
    ⟨[], [], [], [], []⟩
    (by decide) (by decide) (by decide) (by decide) (by decide)

theorem prefixOf_self_append : ∀ (p t : List Char), prefixOf p (p ++ t) = true := by
  intro p
  induction p with
  | nil => intro t; rfl
  | cons c cs ih => intro t; simp [prefixOf, ih]

theorem strHasSub_of_prefixOf (p l : List Char) (h : prefixOf p l = true) :
    strHasSub p l = true := by
  cases l with
  | nil => simpa [strHasSub] using h
  | cons c rest => simp [strHasSub, h]

theorem strHasSub_cons (p : List Char) (c : Char) (rest : List Char)
    (h : strHasSub p rest = true) : strHasSub p (c :: rest) = true := by
  simp [strHasSub, h]

theorem splitComma_spec : ∀ (l : List Char), ∃ h t, splitComma l = h :: t ∧
    (∃ rest, l = h ++ rest) ∧ ∀ c ∈ t, strHasSub c l = true := by
  intro l
  induction l with
  | nil => exact ⟨[], [], rfl, ⟨[], rfl⟩, by simp⟩
  | cons ch rest ih =>
    rcases ih with ⟨h, t, heq, ⟨r, hpre⟩, htail⟩
    by_cases hc : ch = ','
    · subst hc
      refine ⟨[], h :: t, by simp [splitComma, heq], ⟨_, rfl⟩, ?_⟩
      intro c hcmem
      rcases List.mem_cons.mp hcmem with rfl | hcm
      · exact strHasSub_cons _ _ _
          (strHasSub_of_prefixOf _ _ (hpre ▸ prefixOf_self_append c r))
      · exact strHasSub_cons _ _ _ (htail _ hcm)
    · refine ⟨ch :: h, t, by simp [splitComma, heq, hc], ⟨r, by rw [hpre]; rfl⟩, ?_⟩
      intro c hcm
      exact strHasSub_cons _ _ _ (htail _ hcm)

theorem splitComma_hasSub (l c : List Char) (h : c ∈ splitComma l) :
    strHasSub c l = true := by
  rcases splitComma_spec l with ⟨hd, t, heq, ⟨r, hpre⟩, htail⟩
  rw [heq] at h
  rcases List.mem_cons.mp h with rfl | hm
  · exact strHasSub_of_prefixOf _ _ (hpre ▸ prefixOf_self_append c r)
  · exact htail _ hm

theorem candidate_notListed (specific : Option String) (catalog : List String)
    (t : String) (h : t ∈ candidate_tables specific catalog) :
    notListed specific t = false := by
  cases specific with
  | none => rfl
  | some s =>
    unfold candidate_tables at h
    cases hs : (s == "") with
    | true => simp [notListed, hs]
    | false =>
      simp only [hs, Bool.false_eq_true, if_false] at h
      rcases List.mem_map.mp h with ⟨chunk, hchunk, hte⟩
      have hdata : t.data = chunk := by rw [← hte]
      have hsub : strHasSub chunk s.data = true := splitComma_hasSub s.data chunk hchunk
      simp [notListed, strInStr, hdata, hsub]

theorem selectLoop_processed (specific : Option String) :
    ∀ (lst : List String) (t : String), t ∈ (selectLoop specific lst).2 →
      pyStartsWith t "bucket_forecast_" = false := by
  intro lst
  induction lst with
  | nil => intro t ht; simp [selectLoop] at ht
  | cons u rest ih =>
    intro t ht
    by_cases h1 : notListed specific u = true
    · simp only [selectLoop, h1, if_true] at ht
      exact ih t ht
    · by_cases h2 : pyStartsWith u "bucket_forecast_" = true
      · simp only [selectLoop, h1, if_false, h2, if_true] at ht
        exact ih t ht
      · simp only [selectLoop, h1, if_false, h2] at ht
        rcases List.mem_cons.mp ht with rfl | hmem
        · simpa using h2
        · exact ih t hmem

theorem selectLoop_skipped (specific : Option String) :
    ∀ (lst : List String) (t : String), t ∈ lst → notListed specific t = false →
      pyStartsWith t "bucket_forecast_" = true → t ∈ (selectLoop specific lst).1 := by
  intro lst
  induction lst with
  | nil => intro t ht; intro _ _; simp at ht
  | cons u rest ih =>
    intro t ht hnl hsw
    rcases List.mem_cons.mp ht with rfl | hmem
    · simp [selectLoop, hnl, hsw]
    · by_cases h1 : notListed specific u = true
      · simp only [selectLoop, h1, if_true]
        exact ih t hmem hnl hsw
      · by_cases h2 : pyStartsWith u "bucket_forecast_" = true
        · simp only [selectLoop, h1, if_false, h2, if_true]
          exact List.mem_cons_of_mem _ (ih t hmem hnl hsw)
        · simp only [selectLoop, h1, if_false, h2]
          exact ih t hmem hnl hsw

/-- Claim C3: every candidate table name — whether enumerated from the
catalog (`specific_tables` absent) or taken from the comma-split of an
explicit `specific_tables` string — that starts with `bucket_forecast_` is
recorded in the skipped list and is never among the processed tables (so no
schema inspection, table creation or forecasting happens for it). The
`table not in specific_tables` guard of line 231 cannot intercept it, since
every comma chunk is a substring of the original string. -/
theorem claim_C3_forecast_tables_skipped (specific : Option String)
    (catalog : List String) (t : String)
    (hmem : t ∈ candidate_tables specific catalog)
    (hfp : pyStartsWith t "bucket_forecast_" = true) :
    t ∈ (mainSelect specific catalog).1 ∧ t ∉ (mainSelect specific catalog).2 := by
  constructor
  · exact selectLoop_skipped specific _ t hmem
      (candidate_notListed specific catalog t hmem) hfp
  · intro hc
    have hfalse := selectLoop_processed specific (candidate_tables specific catalog) t hc
    rw [hfp] at hfalse
    exact Bool.noConfusion hfalse

theorem claim_C3_forecast_tables_skipped_witness :
    "bucket_forecast_y" ∈ (mainSelect (some "x,bucket_forecast_y") ["z"]).1 ∧
    "bucket_forecast_y" ∉ (mainSelect (some "x,bucket_forecast_y") ["z"]).2 :=
  claim_C3_forecast_tables_skipped (some "x,bucket_forecast_y") ["z"]
    "bucket_forecast_y" (by decide) (by decide)
